import Mathlib

/-!
Verification of the LFSR generator in src/LFSR.py.

The Python source of the core function is:

    def lfsr_32bit(seed = 1, taps = 0x80200003, cycles = 100):
        state = seed
        output = []
        for _ in range(cycles):
            state = (state >> 1) ^ (-(state & 1) & taps)
            output.append(state & 1)
        return output

Python integers are unbounded and signed, so the faithful embedding works
over `Int`: `&` is `Int.land`, `^` is `Int.xor`, unary minus is `Int` negation,
and `>>` is the arithmetic right shift (on non-negative integers this agrees
with the logical, zero-fill shift). The cycle count feeds `range`, which for a
non-negative count iterates exactly that many times, so it is embedded as `Nat`.

The spec describes the same algorithm in W-bit unsigned arithmetic (W = 32);
the reference recurrence is embedded separately over `Nat`, translated from
the spec wording, and the two are related by refinement theorems.
-/

namespace LFSR

/-- The feedback subterm of line 8 of the source: `-(state & 1) & taps`. -/
def feedback (taps state : Int) : Int :=
  Int.land (-(Int.land state 1)) taps

/-- One iteration of the loop body, line 8 of the source:
`state = (state >> 1) ^ (-(state & 1) & taps)`. -/
def lfsrStep (taps state : Int) : Int :=
  Int.xor (state >>> (1 : Int)) (feedback taps state)

/-- The `for _ in range(cycles)` loop of the source (lines 7 to 9): from the
current register `state`, run `n` iterations; each iteration updates the state
by `lfsrStep` and appends `state & 1` (line 9) to the output. -/
def lfsrRun (taps state : Int) : Nat → List Int
  | 0 => []
  | n + 1 =>
    let s := lfsrStep taps state
    Int.land s 1 :: lfsrRun taps s n

/-- `lfsr_32bit(seed, taps, cycles)` from src/LFSR.py (lines 4 to 10): the
register starts at `seed` (line 5) and the loop produces the output list.
The Python defaults are seed = 1, taps = 0x80200003, cycles = 100; they do
not affect the semantics of an explicit call and are not repeated here. -/
def lfsr_32bit (seed taps : Int) (cycles : Nat) : List Int :=
  lfsrRun taps seed cycles

/-- The reference per-step recurrence written from the spec (section 4.1,
algorithm steps 1 to 3), in W-bit unsigned arithmetic: extract
`lsb = state & 1`, select `feedback = taps` if `lsb == 1` else `0`, and
form the new state by a logical right shift XOR the feedback. -/
def specStep (taps state : Nat) : Nat :=
  (state >>> 1) ^^^ (if state &&& 1 = 1 then taps else 0)

/-- The reference run written from the spec (section 4.1, algorithm step 4):
after each step, emit the least-significant bit of the NEW state. -/
def specRun (taps state : Nat) : Nat → List Nat
  | 0 => []
  | n + 1 =>
    let s := specStep taps state
    (s &&& 1) :: specRun taps s n

/-- The explicit-branch conditional select described by the spec for the
feedback value: `feedback = lsb ? taps : 0` where `lsb = state & 1`. -/
def feedbackSelect (taps state : Int) : Int :=
  if Int.land state 1 = 1 then taps else 0

/-- Evaluation of the body of `lfsr_32bit` in an error monad, to make the
(absence of an) exception path explicit: Python evaluation of the body either
returns a value or raises; the source body contains no operation that can
raise, so no iteration produces the error branch. -/
def lfsrRunE (taps state : Int) : Nat → Except String (List Int)
  | 0 => Except.ok []
  | n + 1 =>
    let s := lfsrStep taps state
    match lfsrRunE taps s n with
    | Except.ok l => Except.ok (Int.land s 1 :: l)
    | Except.error e => Except.error e

/-- `lfsr_32bit` in the error monad; see `lfsrRunE`. -/
def lfsr_32bitE (seed taps : Int) (cycles : Nat) : Except String (List Int) :=
  lfsrRunE taps seed cycles

/-- The register value after `n` iterations of the loop body, in the
unbounded-integer semantics of the source. -/
def stateIter (taps seed : Int) : Nat → Int
  | 0 => seed
  | n + 1 => lfsrStep taps (stateIter taps seed n)

/-- The register value after `n` iterations of the reference recurrence. -/
def specIter (taps seed : Nat) : Nat → Nat
  | 0 => seed
  | n + 1 => specStep taps (specIter taps seed n)

/-! ### Helper lemmas relating the `Int` embedding to the `Nat` reference -/

theorem ldiff_zero_right (t : Nat) : Nat.ldiff t 0 = t :=
  Nat.eq_of_testBit_eq fun i => by simp [Nat.testBit_ldiff, Nat.zero_testBit]

theorem ldiff_zero_left (t : Nat) : Nat.ldiff 0 t = 0 :=
  Nat.eq_of_testBit_eq fun i => by simp [Nat.testBit_ldiff, Nat.zero_testBit]

theorem land_ofNat_ofNat (m t : Nat) :
    Int.land (Int.ofNat m) (Int.ofNat t) = Int.ofNat (m &&& t) := rfl

theorem xor_ofNat_ofNat (a b : Nat) :
    Int.xor (Int.ofNat a) (Int.ofNat b) = Int.ofNat (a ^^^ b) := rfl

theorem land_one_ofNat (m : Nat) :
    Int.land (Int.ofNat m) 1 = Int.ofNat (m &&& 1) := rfl

theorem neg_one_land_ofNat (t : Nat) :
    Int.land (-1) (Int.ofNat t) = Int.ofNat t := by
  show (↑(Nat.ldiff t 0) : Int) = Int.ofNat t
  rw [ldiff_zero_right]; rfl

theorem zero_land_int (x : Int) : Int.land 0 x = 0 := by
  cases x with
  | ofNat n =>
    show (↑(0 &&& n) : Int) = 0
    simp [Nat.zero_and]
  | negSucc n =>
    show (↑(Nat.ldiff 0 n) : Int) = 0
    rw [ldiff_zero_left]; rfl

theorem shiftRight_one_ofNat (m : Nat) :
    (Int.ofNat m) >>> (1 : Int) = Int.ofNat (m >>> 1) :=
  Int.shiftRight_coe_nat m 1

/-- The feedback bit trick, evaluated on a non-negative state and tap mask. -/
theorem feedback_ofNat (t m : Nat) :
    feedback (Int.ofNat t) (Int.ofNat m)
      = Int.ofNat (if m &&& 1 = 1 then t else 0) := by
  unfold feedback
  rw [land_one_ofNat m, Nat.and_one_is_mod]
  rcases Nat.mod_two_eq_zero_or_one m with h | h <;> rw [h]
  · have e1 : (-(Int.ofNat 0) : Int) = 0 := rfl
    rw [e1, zero_land_int]
    norm_num
  · have e1 : (-(Int.ofNat 1) : Int) = -1 := rfl
    rw [e1, neg_one_land_ofNat]
    simp

/-- One step of the source agrees with one step of the reference recurrence. -/
theorem lfsrStep_ofNat (t m : Nat) :
    lfsrStep (Int.ofNat t) (Int.ofNat m) = Int.ofNat (specStep t m) := by
  unfold lfsrStep specStep
  rw [feedback_ofNat, shiftRight_one_ofNat, xor_ofNat_ofNat]

/-- The whole run of the source agrees with the reference recurrence. -/
theorem lfsrRun_ofNat (t : Nat) :
    ∀ (n : Nat) (s : Nat),
      lfsrRun (Int.ofNat t) (Int.ofNat s) n = (specRun t s n).map Int.ofNat := by
  intro n
  induction n with
  | zero => intro s; rfl
  | succ n ih =>
    intro s
    show Int.land (lfsrStep (Int.ofNat t) (Int.ofNat s)) 1
          :: lfsrRun (Int.ofNat t) (lfsrStep (Int.ofNat t) (Int.ofNat s)) n
        = Int.ofNat (specStep t s &&& 1) :: (specRun t (specStep t s) n).map Int.ofNat
    rw [lfsrStep_ofNat, land_one_ofNat, ih]

theorem lfsrRun_length (taps : Int) :
    ∀ (n : Nat) (state : Int), (lfsrRun taps state n).length = n := by
  intro n
  induction n with
  | zero => intro state; rfl
  | succ n ih =>
    intro state
    show (Int.land (lfsrStep taps state) 1
          :: lfsrRun taps (lfsrStep taps state) n).length = n + 1
    rw [List.length_cons, ih]

theorem specStep_zero_taps (s : Nat) : specStep 0 s = s >>> 1 := by
  unfold specStep
  simp

theorem specRun_zero_taps :
    ∀ (n s : Nat),
      specRun 0 s n = (List.range n).map (fun i => (s >>> (i + 1)) &&& 1) := by
  intro n
  induction n with
  | zero => intro s; rfl
  | succ n ih =>
    intro s
    show (specStep 0 s &&& 1) :: specRun 0 (specStep 0 s) n
        = (List.range (n + 1)).map (fun i => (s >>> (i + 1)) &&& 1)
    rw [specStep_zero_taps, ih, List.range_succ_eq_map, List.map_cons, List.map_map]
    congr 1
    have hf : (fun i => (((s >>> 1) >>> (i + 1)) &&& 1))
        = fun i => ((s >>> (i + 1 + 1)) &&& 1) :=
      funext fun i => by rw [← Nat.shiftRight_add, Nat.add_comm 1 (i + 1)]
    rw [hf]
    rfl

theorem specRun_mem_binary (t : Nat) :
    ∀ (n s x : Nat), x ∈ specRun t s n → x = 0 ∨ x = 1 := by
  intro n
  induction n with
  | zero => intro s x hx; simp [specRun] at hx
  | succ n ih =>
    intro s x hx
    simp only [specRun] at hx
    rcases List.mem_cons.mp hx with h | h
    · rw [h, Nat.and_one_is_mod]
      exact Nat.mod_two_eq_zero_or_one _
    · exact ih _ _ h

theorem lfsrRunE_ok (taps : Int) :
    ∀ (n : Nat) (state : Int),
      lfsrRunE taps state n = Except.ok (lfsrRun taps state n) := by
  intro n
  induction n with
  | zero => intro state; rfl
  | succ n ih =>
    intro state
    simp only [lfsrRunE, lfsrRun]
    rw [ih]

theorem stateIter_ofNat (t s : Nat) :
    ∀ n, stateIter (Int.ofNat t) (Int.ofNat s) n = Int.ofNat (specIter t s n) := by
  intro n
  induction n with
  | zero => rfl
  | succ n ih =>
    show lfsrStep (Int.ofNat t) (stateIter (Int.ofNat t) (Int.ofNat s) n)
        = Int.ofNat (specStep t (specIter t s n))
    rw [ih, lfsrStep_ofNat]

theorem specStep_lt (t s : Nat) (ht : t < 2 ^ 32) (hs : s < 2 ^ 32) :
    specStep t s < 2 ^ 32 := by
  unfold specStep
  apply Nat.xor_lt_two_pow
  · rw [Nat.shiftRight_one]
    exact lt_of_le_of_lt (Nat.div_le_self s 2) hs
  · split
    · exact ht
    · positivity

theorem specIter_lt (t s : Nat) (ht : t < 2 ^ 32) (hs : s < 2 ^ 32) :
    ∀ n, specIter t s n < 2 ^ 32 := by
  intro n
  induction n with
  | zero => exact hs
  | succ n ih => exact specStep_lt t _ ht ih

theorem lfsrRun_take (taps : Int) :
    ∀ (m n : Nat) (state : Int), m ≤ n →
      lfsrRun taps state m = (lfsrRun taps state n).take m := by
  intro m
  induction m with
  | zero => intro n state h; rfl
  | succ m ih =>
    intro n state h
    cases n with
    | zero => exact absurd h (by omega)
    | succ n =>
      show Int.land (lfsrStep taps state) 1 :: lfsrRun taps (lfsrStep taps state) m
          = (Int.land (lfsrStep taps state) 1
              :: lfsrRun taps (lfsrStep taps state) n).take (m + 1)
      rw [List.take_succ_cons, ih n _ (Nat.succ_le_succ_iff.mp h)]

/-! ### Claim theorems -/

/-- Claim C1: for every W-bit seed and taps and every non-negative number of
cycles, the output of `lfsr_32bit` equals the reference recurrence of the
spec: from `state_0 = seed`, each step computes
`state_next = (state >> 1) XOR (taps if lsb == 1 else 0)` with a logical
right shift, and the emitted bit is the least-significant bit of the NEW
state. -/
theorem lfsr_32bit_matches_reference (seed taps : Nat)
    (hs : seed < 2 ^ 32) (ht : taps < 2 ^ 32) (cycles : Nat) :
    lfsr_32bit (Int.ofNat seed) (Int.ofNat taps) cycles
      = (specRun taps seed cycles).map Int.ofNat :=
  lfsrRun_ofNat taps cycles seed

theorem lfsr_32bit_matches_reference_witness :
    lfsr_32bit (Int.ofNat 1) (Int.ofNat 0x80200003) 5
      = (specRun 0x80200003 1 5).map Int.ofNat :=
  lfsr_32bit_matches_reference 1 0x80200003 (by norm_num) (by norm_num) 5

/-- Claim C2: for every seed, taps and non-negative cycles, `lfsr_32bit`
returns a sequence of exactly `cycles` bits, and `cycles = 0` returns the
empty sequence. -/
theorem lfsr_32bit_length_eq_cycles (seed taps : Int) (cycles : Nat) :
    (lfsr_32bit seed taps cycles).length = cycles
      ∧ lfsr_32bit seed taps 0 = [] :=
  ⟨lfsrRun_length taps cycles seed, rfl⟩

/-- Claim C3: `lfsr_32bit` is a pure, deterministic function of
`(seed, taps, cycles)`: two invocations with identical inputs produce
identical output sequences (in the embedding there is no hidden state, so
the output depends on nothing but the three arguments). -/
theorem lfsr_32bit_deterministic (s t : Int) (c : Nat) (s2 t2 : Int) (c2 : Nat)
    (hs : s = s2) (ht : t = t2) (hc : c = c2) :
    lfsr_32bit s t c = lfsr_32bit s2 t2 c2 := by
  rw [hs, ht, hc]

theorem lfsr_32bit_deterministic_witness :
    lfsr_32bit 1 0x80200003 5 = lfsr_32bit 1 0x80200003 5 :=
  lfsr_32bit_deterministic 1 0x80200003 5 1 0x80200003 5 rfl rfl rfl

theorem lfsrStep_zero_state (taps : Int) : lfsrStep taps 0 = 0 := by
  unfold lfsrStep feedback
  have h1 : Int.land (0 : Int) 1 = 0 := rfl
  rw [h1]
  have h2 : (-(0 : Int)) = 0 := rfl
  rw [h2, zero_land_int]
  rfl

theorem lfsrRun_zero_state (taps : Int) :
    ∀ n, lfsrRun taps 0 n = List.replicate n 0 := by
  intro n
  induction n with
  | zero => rfl
  | succ n ih =>
    show Int.land (lfsrStep taps 0) 1 :: lfsrRun taps (lfsrStep taps 0) n
        = List.replicate (n + 1) 0
    rw [lfsrStep_zero_state]
    have h1 : Int.land (0 : Int) 1 = 0 := rfl
    rw [h1, ih]
    rfl

/-- Claim C4: the zero register is a fixed point: for any taps and any
`N > 0`, `lfsr_32bit 0 taps N` runs to completion (the embedding is total)
and returns a sequence of `N` zeros. -/
theorem lfsr_32bit_zero_seed_all_zeros (taps : Int) (N : Nat) (hN : 0 < N) :
    lfsr_32bit 0 taps N = List.replicate N 0 :=
  lfsrRun_zero_state taps N

theorem lfsr_32bit_zero_seed_all_zeros_witness :
    lfsr_32bit 0 0x80200003 4 = List.replicate 4 0 :=
  lfsr_32bit_zero_seed_all_zeros 0x80200003 4 (by norm_num)

/-- Claim C5: the bit-trick feedback `-(state & 1) & taps` of the source
equals, as a function of a non-negative state and tap mask, the explicit
conditional select `feedback = lsb ? taps : 0` demanded by the spec. -/
theorem feedback_eq_select (state taps : Nat) :
    feedback (Int.ofNat taps) (Int.ofNat state)
      = feedbackSelect (Int.ofNat taps) (Int.ofNat state) := by
  rw [feedback_ofNat]
  unfold feedbackSelect
  rw [land_one_ofNat]
  have hc : Int.ofNat (state &&& 1) = 1 ↔ state &&& 1 = 1 :=
    ⟨fun h => Int.ofNat.inj h, fun h => by rw [h]; rfl⟩
  by_cases h : state &&& 1 = 1
  · rw [if_pos h, if_pos (hc.mpr h)]
  · rw [if_neg h, if_neg (fun hx => h (hc.mp hx))]
    rfl

/-- Claim C6: with `taps = 0` the register drains: bit `i` of the output is
bit `i + 1` of the seed (and 0 once the register has drained); in
particular `lfsr_32bit 0b1011 0 4 = [1, 0, 1, 0]`. -/
theorem lfsr_32bit_taps_zero_drains :
    (∀ (seed cycles : Nat),
      lfsr_32bit (Int.ofNat seed) 0 cycles
        = (List.range cycles).map (fun i => Int.ofNat ((seed >>> (i + 1)) &&& 1)))
    ∧ lfsr_32bit (Int.ofNat 0b1011) 0 4 = [1, 0, 1, 0] := by
  constructor
  · intro seed cycles
    have h := lfsrRun_ofNat 0 cycles seed
    rw [specRun_zero_taps, List.map_map] at h
    exact h
  · rw [show lfsr_32bit (Int.ofNat 0b1011) 0 4
        = lfsrRun (Int.ofNat 0) (Int.ofNat 11) 4 from rfl,
      lfsrRun_ofNat 0 4 11]
    decide

/-- Claim C7: every element of the output sequence of `lfsr_32bit` is
exactly 0 or 1, for every seed, taps and cycle count. -/
theorem lfsr_32bit_output_bits_binary (seed taps cycles : Nat) (b : Int)
    (hb : b ∈ lfsr_32bit (Int.ofNat seed) (Int.ofNat taps) cycles) :
    b = 0 ∨ b = 1 := by
  have h := lfsrRun_ofNat taps cycles seed
  rw [show lfsr_32bit (Int.ofNat seed) (Int.ofNat taps) cycles
      = lfsrRun (Int.ofNat taps) (Int.ofNat seed) cycles from rfl, h] at hb
  rcases List.mem_map.mp hb with ⟨x, hx, hbx⟩
  rcases specRun_mem_binary taps cycles seed x hx with h0 | h1
  · left; rw [← hbx, h0]; rfl
  · right; rw [← hbx, h1]; rfl

theorem lfsr_32bit_output_bits_binary_witness :
    (1 : Int) = 0 ∨ (1 : Int) = 1 :=
  lfsr_32bit_output_bits_binary 1 0x80200003 1 1 (by
    rw [show lfsr_32bit (Int.ofNat 1) (Int.ofNat 0x80200003) 1
        = lfsrRun (Int.ofNat 0x80200003) (Int.ofNat 1) 1 from rfl,
      lfsrRun_ofNat 0x80200003 1 1]
    decide)

/-- Claim C8: `lfsr_32bit` never raises an error for any W-bit seed
(including zero), any W-bit tap mask and any non-negative cycle count: the
error branch of the error-monad embedding is unreachable, and the result is
exactly the pure output. -/
theorem lfsr_32bitE_never_errors (seed taps : Nat)
    (hs : seed < 2 ^ 32) (ht : taps < 2 ^ 32) (cycles : Nat) :
    lfsr_32bitE (Int.ofNat seed) (Int.ofNat taps) cycles
      = Except.ok (lfsr_32bit (Int.ofNat seed) (Int.ofNat taps) cycles) :=
  lfsrRunE_ok (Int.ofNat taps) cycles (Int.ofNat seed)

theorem lfsr_32bitE_never_errors_witness :
    lfsr_32bitE (Int.ofNat 0) (Int.ofNat 0x80200003) 5
      = Except.ok (lfsr_32bit (Int.ofNat 0) (Int.ofNat 0x80200003) 5) :=
  lfsr_32bitE_never_errors 0 0x80200003 (by norm_num) (by norm_num) 5

/-- Claim C9: although the source works on unbounded Python integers and
never masks the state, for every seed and taps below `2 ^ 32` the register
value after any number of steps stays a non-negative integer strictly below
`2 ^ 32`. -/
theorem lfsr_32bit_state_in_range (seed taps : Nat)
    (hs : seed < 2 ^ 32) (ht : taps < 2 ^ 32) (n : Nat) :
    0 ≤ stateIter (Int.ofNat taps) (Int.ofNat seed) n
      ∧ stateIter (Int.ofNat taps) (Int.ofNat seed) n < 2 ^ 32 := by
  rw [stateIter_ofNat]
  constructor
  · exact Int.ofNat_nonneg _
  · rw [Int.ofNat_eq_natCast]
    exact_mod_cast specIter_lt taps seed ht hs n

theorem lfsr_32bit_state_in_range_witness :
    0 ≤ stateIter (Int.ofNat 0x80200003) (Int.ofNat 1) 3
      ∧ stateIter (Int.ofNat 0x80200003) (Int.ofNat 1) 3 < 2 ^ 32 :=
  lfsr_32bit_state_in_range 1 0x80200003 (by norm_num) (by norm_num) 3

/-- Claim C10: for all `m ≤ n`, running `lfsr_32bit` for `m` cycles yields
exactly the first `m` elements of the run for `n` cycles: a larger cycle
count only extends the output and never changes earlier bits. -/
theorem lfsr_32bit_take_of_le (seed taps : Int) (m n : Nat) (h : m ≤ n) :
    lfsr_32bit seed taps m = (lfsr_32bit seed taps n).take m :=
  lfsrRun_take taps m n seed h

theorem lfsr_32bit_take_of_le_witness :
    lfsr_32bit 1 0x80200003 2 = (lfsr_32bit 1 0x80200003 5).take 2 :=
  lfsr_32bit_take_of_le 1 0x80200003 2 5 (by norm_num)

end LFSR
